import Mathlib

/-
Verification of the Go-Shortener URL shortener (src/main.go) against its
specification.  The stateful Go program is shallowly embedded: the two bbolt
buckets ("urls" and "reverse") and the in-memory hot cache become association
lists, the md5 hash and the current timestamp become oracle inputs (one hash
per generation attempt, since each retry re-reads the clock), `net/url.Parse`
becomes an oracle function, and the possibility of a failing write transaction
becomes a boolean oracle.  All definitions are executable.
-/

set_option maxHeartbeats 1000000

namespace GoShortener

/-- Point lookup in an association-list model of a bbolt bucket
(`bucket.Get(key)`): the first binding of the key wins. -/
def getKV {α : Type} : List (String × α) → String → Option α
  | [], _ => none
  | (k, v) :: t, key => if k = key then some v else getKV t key

/-- Remove every binding of a key; helper for `putKV`. -/
def eraseKV {α : Type} : List (String × α) → String → List (String × α)
  | [], _ => []
  | (k, v) :: t, key => if k = key then eraseKV t key else (k, v) :: eraseKV t key

/-- Point write in a bucket (`bucket.Put(key, v)`): bbolt keys are unique, so a
put replaces any previous binding of the key. -/
def putKV {α : Type} (l : List (String × α)) (key : String) (v : α) : List (String × α) :=
  (key, v) :: eraseKV l key

/-- The `URL` struct of main.go: fields `ID`, `OriginalURL`, `ShortCode`,
`CreatedAt`, `ClickCount`.  Timestamps are abstract naturals. -/
structure URLRec where
  id : Int
  originalURL : String
  shortCode : String
  createdAt : Nat
  clickCount : Nat
deriving DecidableEq, Repr

/-- The persistent store: bucket "urls" (short code to serialized record) and
bucket "reverse" (original url to short code). -/
structure Store where
  urls : List (String × URLRec)
  reverse : List (String × String)
deriving DecidableEq, Repr

/-- The `App` state: the bolt database plus the go-cache hot cache
(short code to original url). -/
structure AppState where
  store : Store
  cache : List (String × String)
deriving DecidableEq, Repr

/-- Result of `url.Parse` as far as `isValidURL` inspects it: the `Scheme` and
`Host` fields.  `net/url` is an external collaborator, so parsing itself is an
oracle of type `String -> Option URLInfo` (`none` models a parse error). -/
structure URLInfo where
  scheme : String
  host : String
deriving DecidableEq, Repr

/-- The `ShortenResponse` struct of main.go. -/
structure ShortenResponse where
  shortURL : String
  originalURL : String
  shortCode : String
deriving DecidableEq, Repr

/-- Outcome of one call to `shortenHandler`, after JSON decoding (the decoder
is a thin wrapper outside the core): `invalidURL` is the 400 "invalid url
format" response, `genError` the 500 "server error" response from a failed
generation, `persistError` the 500 "failed to save url" response, and `ok`
carries the JSON success payload. -/
inductive ShortenResult where
  | invalidURL
  | genError
  | persistError
  | ok (resp : ShortenResponse)
deriving DecidableEq, Repr

/-- Outcome of one call to `redirectHandler`: 404 or a 301 redirect to the
original url. -/
inductive ResolveResult where
  | notFound
  | redirect (url : String)
deriving DecidableEq, Repr

/-- Go `strings.HasPrefix` on the byte/char level: is the first list a prefix
of the second?  (For the ASCII prefixes used here, Go's byte-wise check and
this char-wise check agree.) -/
def leadsWith : List Char → List Char → Bool
  | [], _ => true
  | _ :: _, [] => false
  | a :: as, b :: bs => a == b && leadsWith as bs

/-- Lines 117-119 of main.go: prepend "https://" when the input has neither an
"http://" nor an "https://" prefix. -/
def normalizeURL (s : String) : String :=
  if leadsWith "http://".data s.data || leadsWith "https://".data s.data then s
  else "https://" ++ s

/-- `isValidURL` (main.go lines 92-95): the parse must succeed and yield a
non-empty `Scheme` and a non-empty `Host`. -/
def isValidURL (parse : String → Option URLInfo) (s : String) : Bool :=
  match parse s with
  | some u => !(u.scheme = "") && !(u.host = "")
  | none => false

/-- The `base62Chars` constant of main.go line 47. -/
def base62Chars : String := "abcdefghijklmnopqrstuvwxyzABCDEFGHIJKLMNOPQRSTUVWXYZ0123456789"

/-- The `hextable` of Go's `encoding/hex`: `hex.EncodeToString` writes
`hextable[b>>4]` then `hextable[b&0x0f]` for each byte. -/
def hextable : String := "0123456789abcdef"

/-- `hex.EncodeToString` on a byte sequence (bytes as naturals below 256; the
extra `% 16` only makes the model total). -/
def hexEncode : List Nat → List Char
  | [] => []
  | b :: bs => hextable.data.getD (b / 16 % 16) 'x' :: hextable.data.getD (b % 16) 'x' :: hexEncode bs

/-- Lines 55-64 of main.go, given the md5 digest bytes: hex-encode the digest,
take the first 8 CHARACTERS of the hex string, and index `base62Chars` with
the ASCII code of each such character modulo 62 (`int(hash[i]) % 62` — `hash`
is the hex string, not the raw digest). -/
def codeFromHash (digest : List Nat) : String :=
  String.mk (((hexEncode digest).take 8).map (fun c => base62Chars.data.getD (c.toNat % 62) 'x'))

/-- Reading of claim C3's words, for comparison with `codeFromHash`: map each
of the first 8 BYTES of the hash to an alphabet symbol via byte mod 62. -/
def specClaimCode (digest : List Nat) : String :=
  String.mk ((digest.take 8).map (fun b => base62Chars.data.getD (b % 62) 'x'))

/-- `generateShortCode` (main.go lines 51-89), with the successive md5 digests
(one per attempt — each retry hashes with a later timestamp) supplied as an
oracle list: derive a candidate code from the next digest, return it when the
"urls" bucket has no record under it, otherwise retry with the next digest.
`none` means the oracle list was exhausted (the Go loop would still be
retrying). -/
def generateShortCode (urls : List (String × URLRec)) : List (List Nat) → Option String
  | [] => none
  | digest :: rest =>
    let code := codeFromHash digest
    match getKV urls code with
    | some _ => generateShortCode urls rest
    | none => some code

/-- Line 143 / line 210 of main.go: the short url is built by
`fmt.Sprintf("http://localhost:8080/%s", code)`. -/
def shortURLOf (code : String) : String := "http://localhost:8080/" ++ code

/-- Lines 496-499 of main.go: the listening port is `os.Getenv("PORT")`, with
"8080" as default when the variable is empty/unset. -/
def resolvePort (env : String) : String := if env = "" then "8080" else env

/-- `shortenHandler` (main.go lines 98-217) after JSON decoding.  Oracles:
`parse` for `url.Parse`, `hashes` for the md5 digests of url+timestamp,
`now` for `time.Now()` at record creation, `writeOk` for the success of the
`DB.Update` write transaction (on failure bolt rolls the whole transaction
back, so the state is unchanged). -/
def shortenHandler (parse : String → Option URLInfo) (app : AppState)
    (rawURL : String) (hashes : List (List Nat)) (now : Nat) (writeOk : Bool) :
    ShortenResult × AppState :=
  if isValidURL parse (normalizeURL rawURL) then
    match getKV app.store.reverse (normalizeURL rawURL) with
    | some c => (.ok ⟨shortURLOf c, normalizeURL rawURL, c⟩, app)
    | none =>
      match generateShortCode app.store.urls hashes with
      | none => (.genError, app)
      | some code =>
        if writeOk then
          (.ok ⟨shortURLOf code, normalizeURL rawURL, code⟩,
           ⟨⟨putKV app.store.urls code ⟨0, normalizeURL rawURL, code, now, 0⟩,
             putKV app.store.reverse (normalizeURL rawURL) code⟩,
            putKV app.cache code (normalizeURL rawURL)⟩)
        else (.persistError, app)
  else (.invalidURL, app)

/-- The body of the background click-increment goroutine (main.go lines
233-248 and 281-296): read the record, bump `ClickCount`, rewrite it; when the
record is absent nothing happens (every error inside is swallowed). -/
def incrementClick (urls : List (String × URLRec)) (c : String) : List (String × URLRec) :=
  match getKV urls c with
  | some r => putKV urls c ⟨r.id, r.originalURL, r.shortCode, r.createdAt, r.clickCount + 1⟩
  | none => urls

/-- The background increment with its failure oracle: when the `DB.Update`
transaction fails (`incOk = false`) the bucket is untouched and the error is
simply discarded — the goroutine neither logs nor retries it. -/
def applyIncrement (urls : List (String × URLRec)) (c : String) (incOk : Bool) :
    List (String × URLRec) :=
  if incOk then incrementClick urls c else urls

/-- The whole background increment goroutine (main.go lines 232-249 and
280-297) together with the list of log lines it emits.  The body contains no
log call on any path: the `DB.Update` return value is discarded at the call
site, the inner `bucket.Put` error is discarded, and an unmarshal or marshal
failure silently skips the write — so the emitted log list is `[]` whether
the transaction succeeds or fails (the only `log.Printf` calls of the program
are on the synchronous shorten path, lines 156 and 199, and in `main`). -/
def incrementTask (urls : List (String × URLRec)) (c : String) (incOk : Bool) :
    List (String × URLRec) × List String :=
  (applyIncrement urls c incOk, [])

/-- `redirectHandler` (main.go lines 220-300), with the background increment
modelled as completing (or failing, per `incOk`) before the state is observed
— the claims about click counts let each increment settle.  Cache hit: redirect
to the cached url and increment.  Cache miss: read the record; an absent
record (empty `originalURL`) is a 404; otherwise populate the cache, increment
and redirect. -/
def redirectHandler (app : AppState) (shortCode : String) (incOk : Bool) :
    ResolveResult × AppState :=
  if shortCode = "" then (.notFound, app)
  else
    match getKV app.cache shortCode with
    | some u =>
        (.redirect u,
         ⟨⟨applyIncrement app.store.urls shortCode incOk, app.store.reverse⟩, app.cache⟩)
    | none =>
        match getKV app.store.urls shortCode with
        | some r =>
            if r.originalURL = "" then (.notFound, app)
            else
              (.redirect r.originalURL,
               ⟨⟨applyIncrement app.store.urls shortCode incOk, app.store.reverse⟩,
                putKV app.cache shortCode r.originalURL⟩)
        | none => (.notFound, app)

/-- N sequential resolves of the same code, each background increment allowed
to complete (`incOk = true`) before the next call. -/
def resolveN (app : AppState) (c : String) : Nat → AppState
  | 0 => app
  | n + 1 => resolveN (redirectHandler app c true).2 c n

/-- The state right after `setupDatabase` (main.go lines 448-461): both
buckets exist and are empty, the cache is empty. -/
def initialApp : AppState := ⟨⟨[], []⟩, []⟩

/-- States reachable by any sequence of shorten and resolve requests from the
fresh database.  The side condition on `hashes` records that every md5 digest
has exactly 16 bytes. -/
inductive Reach : AppState → Prop where
  | init : Reach initialApp
  | shorten {app : AppState} (h : Reach app) (parse : String → Option URLInfo)
      (rawURL : String) (hashes : List (List Nat)) (now : Nat) (writeOk : Bool)
      (hlen : ∀ d ∈ hashes, d.length = 16) :
      Reach (shortenHandler parse app rawURL hashes now writeOk).2
  | resolve {app : AppState} (h : Reach app) (shortCode : String) (incOk : Bool) :
      Reach (redirectHandler app shortCode incOk).2

/-- The cross-bucket consistency stated by the spec: a record exists under a
code in "urls" iff the "reverse" bucket maps that record's original url back
to the same code. -/
def StoreConsistent (st : Store) : Prop :=
  (∀ c r, getKV st.urls c = some r → getKV st.reverse r.originalURL = some c) ∧
  (∀ u c, getKV st.reverse u = some c → ∃ r, getKV st.urls c = some r ∧ r.originalURL = u)

/-- The full inductive invariant of reachable states. -/
structure Inv (app : AppState) : Prop where
  urls_rev : ∀ c r, getKV app.store.urls c = some r →
      getKV app.store.reverse r.originalURL = some c
  rev_urls : ∀ u c, getKV app.store.reverse u = some c →
      ∃ r, getKV app.store.urls c = some r ∧ r.originalURL = u
  cache_ok : ∀ c u, getKV app.cache c = some u →
      ∃ r, getKV app.store.urls c = some r ∧ r.originalURL = u
  url_ne : ∀ c r, getKV app.store.urls c = some r → r.originalURL ≠ ""
  code_eq : ∀ c r, getKV app.store.urls c = some r → r.shortCode = c
  code_ne : ∀ c r, getKV app.store.urls c = some r → c ≠ ""

/-- The 16 characters that `codeFromHash` can actually emit: the images under
`base62Chars` indexing of the ASCII codes (mod 62) of the hex digits 0-9a-f. -/
def allowedChars : List Char :=
  ['J', 'K', 'L', 'M', 'N', 'O', 'W', 'X', 'Y', 'Z', '0', '1', '2', '3', '4', '5']

/-- A concrete parse oracle for witnesses: accepts exactly one url. -/
def parseEx : String → Option URLInfo :=
  fun s => if s = "https://example.com" then some ⟨"https", "example.com"⟩ else none

/-- A concrete 16-byte md5 digest for witnesses: all zero bytes. -/
def digest0 : List Nat := List.replicate 16 0

/-- Looking a key up right after putting it yields the stored value. -/
theorem getKV_putKV_self {α : Type} (l : List (String × α)) (key : String) (v : α) :
    getKV (putKV l key v) key = some v := by
  simp [putKV, getKV]

/-- Erasing one key leaves lookups of other keys unchanged. -/
theorem getKV_eraseKV {α : Type} (l : List (String × α)) (key k : String) (h : k ≠ key) :
    getKV (eraseKV l key) k = getKV l k := by
  induction l with
  | nil => rfl
  | cons p t ih =>
    obtain ⟨k0, v0⟩ := p
    simp only [eraseKV, getKV]
    by_cases hk : k0 = key
    · rw [if_pos hk, ih, if_neg (show ¬k0 = k from fun he => h (he ▸ hk))]
    · rw [if_neg hk]
      simp only [getKV]
      by_cases he : k0 = k
      · rw [if_pos he, if_pos he]
      · rw [if_neg he, if_neg he, ih]

/-- Putting one key leaves lookups of other keys unchanged. -/
theorem getKV_putKV_ne {α : Type} (l : List (String × α)) (key k : String) (v : α)
    (h : k ≠ key) : getKV (putKV l key v) k = getKV l k := by
  simp only [putKV, getKV]
  rw [if_neg (fun he => h he.symm), getKV_eraseKV l key k h]

/-- A prefix is no longer than the whole. -/
theorem leadsWith_length (p s : List Char) (h : leadsWith p s = true) :
    p.length ≤ s.length := by
  induction p generalizing s with
  | nil => simp
  | cons a as ih =>
    cases s with
    | nil => simp [leadsWith] at h
    | cons b bs =>
      simp only [leadsWith, Bool.and_eq_true] at h
      have := ih bs h.2
      simp only [List.length_cons]
      omega

/-- Normalization never yields the empty string: either the input already
carries a 7-or-8 character scheme prefix, or "https://" is prepended. -/
theorem normalizeURL_ne (s : String) : normalizeURL s ≠ "" := by
  intro hcontra
  unfold normalizeURL at hcontra
  split at hcontra
  · rename_i h
    have hd : s.data = [] := congrArg String.data hcontra
    rw [Bool.or_eq_true] at h
    rcases h with h | h
    · have h7 : ("http://".data).length = 7 := rfl
      have hle := leadsWith_length _ _ h
      rw [hd, h7] at hle
      simp at hle
    · have h8 : ("https://".data).length = 8 := rfl
      have hle := leadsWith_length _ _ h
      rw [hd, h8] at hle
      simp at hle
  · have hd : ("https://" ++ s).data = [] := congrArg String.data hcontra
    rw [String.data_append] at hd
    simp at hd

/-- Inversion for the generator: a returned code comes from one of the offered
digests and is fresh — no record currently exists under it. -/
theorem generateShortCode_eq (urls : List (String × URLRec)) (hashes : List (List Nat))
    (code : String) (h : generateShortCode urls hashes = some code) :
    (∃ d ∈ hashes, code = codeFromHash d) ∧ getKV urls code = none := by
  induction hashes with
  | nil => simp [generateShortCode] at h
  | cons d rest ih =>
    rw [generateShortCode] at h
    cases hg : getKV urls (codeFromHash d) with
    | some r =>
      rw [hg] at h
      simp only [] at h
      obtain ⟨⟨d', hd', hcd⟩, hnone⟩ := ih h
      exact ⟨⟨d', List.mem_cons_of_mem _ hd', hcd⟩, hnone⟩
    | none =>
      rw [hg] at h
      simp only [Option.some.injEq] at h
      subst h
      exact ⟨⟨d, List.mem_cons_self _ _, rfl⟩, hg⟩

/-- Hex encoding doubles the length. -/
theorem hexEncode_length (bs : List Nat) : (hexEncode bs).length = 2 * bs.length := by
  induction bs with
  | nil => rfl
  | cons b t ih =>
    simp only [hexEncode, List.length_cons, ih]
    omega

/-- A derived code has exactly 8 characters whenever the digest has at least
4 bytes (md5 digests have 16). -/
theorem codeFromHash_length (d : List Nat) (h : 4 ≤ d.length) :
    (codeFromHash d).length = 8 := by
  have hdata : (codeFromHash d).data
      = ((hexEncode d).take 8).map (fun c => base62Chars.data.getD (c.toNat % 62) 'x') := rfl
  have hlen : (codeFromHash d).length = (codeFromHash d).data.length := rfl
  rw [hlen, hdata, List.length_map, List.length_take, hexEncode_length]
  omega

/-- A derived code is never the empty string (md5 digests have 16 bytes). -/
theorem codeFromHash_ne (d : List Nat) (h : 4 ≤ d.length) : codeFromHash d ≠ "" := by
  intro hcontra
  have := codeFromHash_length d h
  rw [hcontra] at this
  simp [String.length] at this

/-- Every character of a hex encoding is one of the sixteen hex digits. -/
theorem hexEncode_mem (bs : List Nat) (c : Char) (h : c ∈ hexEncode bs) :
    ∃ k, k < 16 ∧ c = hextable.data.getD k 'x' := by
  induction bs with
  | nil => simp [hexEncode] at h
  | cons b t ih =>
    simp only [hexEncode, List.mem_cons] at h
    rcases h with h | h | h
    · exact ⟨b / 16 % 16, Nat.mod_lt _ (by decide), h⟩
    · exact ⟨b % 16, Nat.mod_lt _ (by decide), h⟩
    · exact ih h

/-- Indexing `base62Chars` with the ASCII code (mod 62) of any hex digit lands
in the sixteen-character set. -/
theorem mapped_allowed (k : Nat) (hk : k < 16) :
    base62Chars.data.getD ((hextable.data.getD k 'x').toNat % 62) 'x' ∈ allowedChars := by
  interval_cases k <;> decide

/-- Every character of a derived code is in the sixteen-character set. -/
theorem codeFromHash_chars (d : List Nat) (c : Char) (hc : c ∈ (codeFromHash d).data) :
    c ∈ allowedChars := by
  have hdata : (codeFromHash d).data
      = ((hexEncode d).take 8).map (fun ch => base62Chars.data.getD (ch.toNat % 62) 'x') := rfl
  rw [hdata, List.mem_map] at hc
  obtain ⟨c', hc', rfl⟩ := hc
  have hmem : c' ∈ hexEncode d := List.take_subset 8 _ hc'
  obtain ⟨k, hk, rfl⟩ := hexEncode_mem _ _ hmem
  exact mapped_allowed k hk

/-- The sixteen reachable characters all belong to the 62-symbol alphabet. -/
theorem allowed_sub_base62 : ∀ c ∈ allowedChars, c ∈ base62Chars.data := by decide

/-- Evaluation of the invalid-input branch of `shortenHandler`. -/
theorem shorten_invalid (parse : String → Option URLInfo) (app : AppState) (rawURL : String)
    (hashes : List (List Nat)) (now : Nat) (writeOk : Bool)
    (hv : isValidURL parse (normalizeURL rawURL) = false) :
    shortenHandler parse app rawURL hashes now writeOk = (.invalidURL, app) := by
  simp [shortenHandler, hv]

/-- Evaluation of the dedup branch of `shortenHandler`. -/
theorem shorten_dedup (parse : String → Option URLInfo) (app : AppState) (rawURL : String)
    (hashes : List (List Nat)) (now : Nat) (writeOk : Bool) (c : String)
    (hv : isValidURL parse (normalizeURL rawURL) = true)
    (hd : getKV app.store.reverse (normalizeURL rawURL) = some c) :
    shortenHandler parse app rawURL hashes now writeOk
      = (.ok ⟨shortURLOf c, normalizeURL rawURL, c⟩, app) := by
  simp [shortenHandler, hv, hd]

/-- Evaluation of the failed-write branch of `shortenHandler`. -/
theorem shorten_write_fail (parse : String → Option URLInfo) (app : AppState) (rawURL : String)
    (hashes : List (List Nat)) (now : Nat) (code : String)
    (hv : isValidURL parse (normalizeURL rawURL) = true)
    (hd : getKV app.store.reverse (normalizeURL rawURL) = none)
    (hg : generateShortCode app.store.urls hashes = some code) :
    shortenHandler parse app rawURL hashes now false = (.persistError, app) := by
  simp [shortenHandler, hv, hd, hg]

/-- Inversion for a successful shorten: the input validated, the response
fields are consistent, and the resulting store has the reverse-index entry and
a record for the returned code (on the dedup path the record comes from the
invariant). -/
theorem shorten_ok_inv (parse : String → Option URLInfo) (app : AppState) (rawURL : String)
    (hashes : List (List Nat)) (now : Nat) (writeOk : Bool) (resp : ShortenResponse)
    (app' : AppState) (hInv : Inv app)
    (h : shortenHandler parse app rawURL hashes now writeOk = (.ok resp, app')) :
    isValidURL parse (normalizeURL rawURL) = true ∧
    resp.originalURL = normalizeURL rawURL ∧
    resp.shortURL = shortURLOf resp.shortCode ∧
    getKV app'.store.reverse (normalizeURL rawURL) = some resp.shortCode ∧
    ∃ r, getKV app'.store.urls resp.shortCode = some r ∧
      r.originalURL = normalizeURL rawURL := by
  unfold shortenHandler at h
  split at h
  case isTrue hv =>
    split at h
    next c hd =>
      simp only [Prod.mk.injEq, ShortenResult.ok.injEq] at h
      obtain ⟨hresp, happ⟩ := h
      subst happ
      subst hresp
      exact ⟨hv, rfl, rfl, hd, hInv.rev_urls _ _ hd⟩
    next hd =>
      split at h
      next hg => simp at h
      next code hg =>
        split at h
        case isTrue hw =>
          simp only [Prod.mk.injEq, ShortenResult.ok.injEq] at h
          obtain ⟨hresp, happ⟩ := h
          subst happ
          subst hresp
          exact ⟨hv, rfl, rfl, getKV_putKV_self _ _ _, ⟨_, getKV_putKV_self _ _ _, rfl⟩⟩
        case isFalse hw => simp at h
  case isFalse hv => simp at h

/-- The fresh database satisfies the invariant. -/
theorem inv_initial : Inv initialApp := by
  constructor <;> exact fun a b h => by simp [initialApp, getKV] at h

/-- Creating a record under a fresh code for a url with no reverse entry
preserves the invariant. -/
theorem inv_putNew (st : Store) (cache : List (String × String)) (hInv : Inv ⟨st, cache⟩)
    (u code : String) (now : Nat)
    (hufresh : getKV st.reverse u = none) (hcfresh : getKV st.urls code = none)
    (hu : u ≠ "") (hc : code ≠ "") :
    Inv ⟨⟨putKV st.urls code ⟨0, u, code, now, 0⟩, putKV st.reverse u code⟩,
         putKV cache code u⟩ := by
  constructor
  · intro c r hr
    by_cases hcc : c = code
    · subst hcc
      rw [getKV_putKV_self] at hr
      injection hr with h
      subst h
      exact getKV_putKV_self _ _ _
    · rw [getKV_putKV_ne _ _ _ _ hcc] at hr
      have hrev := hInv.urls_rev c r hr
      by_cases hru : r.originalURL = u
      · rw [hru, hufresh] at hrev
        cases hrev
      · rw [getKV_putKV_ne _ _ _ _ hru]
        exact hrev
  · intro u' c hc'
    by_cases huu : u' = u
    · subst huu
      rw [getKV_putKV_self] at hc'
      injection hc' with h
      subst h
      exact ⟨_, getKV_putKV_self _ _ _, rfl⟩
    · rw [getKV_putKV_ne _ _ _ _ huu] at hc'
      obtain ⟨r, hr, hru⟩ := hInv.rev_urls u' c hc'
      by_cases hcc : c = code
      · subst hcc
        rw [hcfresh] at hr
        cases hr
      · exact ⟨r, by rw [getKV_putKV_ne _ _ _ _ hcc]; exact hr, hru⟩
  · intro c u' hcu
    by_cases hcc : c = code
    · subst hcc
      rw [getKV_putKV_self] at hcu
      injection hcu with h
      subst h
      exact ⟨_, getKV_putKV_self _ _ _, rfl⟩
    · rw [getKV_putKV_ne _ _ _ _ hcc] at hcu
      obtain ⟨r, hr, hru⟩ := hInv.cache_ok c u' hcu
      exact ⟨r, by rw [getKV_putKV_ne _ _ _ _ hcc]; exact hr, hru⟩
  · intro c r hr
    by_cases hcc : c = code
    · subst hcc
      rw [getKV_putKV_self] at hr
      injection hr with h
      subst h
      exact hu
    · rw [getKV_putKV_ne _ _ _ _ hcc] at hr
      exact hInv.url_ne c r hr
  · intro c r hr
    by_cases hcc : c = code
    · subst hcc
      rw [getKV_putKV_self] at hr
      injection hr with h
      subst h
      rfl
    · rw [getKV_putKV_ne _ _ _ _ hcc] at hr
      exact hInv.code_eq c r hr
  · intro c r hr
    by_cases hcc : c = code
    · subst hcc
      exact hc
    · rw [getKV_putKV_ne _ _ _ _ hcc] at hr
      exact hInv.code_ne c r hr

/-- One shorten request preserves the invariant (the digests being genuine
md5 outputs, 16 bytes each). -/
theorem inv_shorten (parse : String → Option URLInfo) (app : AppState) (rawURL : String)
    (hashes : List (List Nat)) (now : Nat) (writeOk : Bool)
    (hlen : ∀ d ∈ hashes, d.length = 16) (hInv : Inv app) :
    Inv (shortenHandler parse app rawURL hashes now writeOk).2 := by
  unfold shortenHandler
  split
  · split
    · exact hInv
    · split
      · exact hInv
      · next code hg =>
          split
          · next hd _ hw =>
              obtain ⟨⟨d, hdmem, hcode⟩, hfresh⟩ := generateShortCode_eq _ _ _ hg
              have h16 := hlen d hdmem
              have hc : code ≠ "" := by
                rw [hcode]
                exact codeFromHash_ne d (by omega)
              obtain ⟨⟨urls, rev⟩, cache⟩ := app
              exact inv_putNew _ _ hInv _ _ _ hd hfresh (normalizeURL_ne _) hc
          · exact hInv
  · exact hInv

/-- The record after an increment: same key, same url, same code, same
creation time, click count bumped by one exactly when the write went through. -/
theorem getKV_applyIncrement_self (urls : List (String × URLRec)) (c : String) (incOk : Bool)
    (r : URLRec) (hg : getKV urls c = some r) :
    getKV (applyIncrement urls c incOk) c
      = some ⟨r.id, r.originalURL, r.shortCode, r.createdAt,
              r.clickCount + (if incOk then 1 else 0)⟩ := by
  cases incOk with
  | false => simpa [applyIncrement] using hg
  | true =>
    simp only [applyIncrement, if_pos, incrementClick, hg]
    exact getKV_putKV_self _ _ _

/-- An increment leaves every other key untouched. -/
theorem getKV_applyIncrement_ne (urls : List (String × URLRec)) (c c' : String) (incOk : Bool)
    (h : c' ≠ c) :
    getKV (applyIncrement urls c incOk) c' = getKV urls c' := by
  cases incOk with
  | false => rfl
  | true =>
    simp only [applyIncrement, if_pos, incrementClick]
    cases hg : getKV urls c with
    | some r => exact getKV_putKV_ne _ _ _ _ h
    | none => rfl

/-- Incrementing one click count preserves the invariant. -/
theorem inv_increment (app : AppState) (c : String) (incOk : Bool) (hInv : Inv app) :
    Inv ⟨⟨applyIncrement app.store.urls c incOk, app.store.reverse⟩, app.cache⟩ := by
  cases hg : getKV app.store.urls c with
  | none =>
    have hsame : applyIncrement app.store.urls c incOk = app.store.urls := by
      cases incOk with
      | false => rfl
      | true => simp [applyIncrement, incrementClick, hg]
    rw [hsame]
    exact hInv
  | some r =>
    constructor
    · intro c' r' hr'
      by_cases hcc : c' = c
      · subst hcc
        rw [getKV_applyIncrement_self _ _ _ _ hg] at hr'
        injection hr' with h
        subst h
        exact hInv.urls_rev c' r hg
      · rw [getKV_applyIncrement_ne _ _ _ _ hcc] at hr'
        exact hInv.urls_rev c' r' hr'
    · intro u' c' hc'
      obtain ⟨r', hr', hru⟩ := hInv.rev_urls u' c' hc'
      by_cases hcc : c' = c
      · subst hcc
        rw [hg] at hr'
        injection hr' with h
        subst h
        exact ⟨_, getKV_applyIncrement_self _ _ _ _ hg, hru⟩
      · exact ⟨r', by rw [getKV_applyIncrement_ne _ _ _ _ hcc]; exact hr', hru⟩
    · intro c' u' hcu
      obtain ⟨r', hr', hru⟩ := hInv.cache_ok c' u' hcu
      by_cases hcc : c' = c
      · subst hcc
        rw [hg] at hr'
        injection hr' with h
        subst h
        exact ⟨_, getKV_applyIncrement_self _ _ _ _ hg, hru⟩
      · exact ⟨r', by rw [getKV_applyIncrement_ne _ _ _ _ hcc]; exact hr', hru⟩
    · intro c' r' hr'
      by_cases hcc : c' = c
      · subst hcc
        rw [getKV_applyIncrement_self _ _ _ _ hg] at hr'
        injection hr' with h
        subst h
        exact hInv.url_ne c' r hg
      · rw [getKV_applyIncrement_ne _ _ _ _ hcc] at hr'
        exact hInv.url_ne c' r' hr'
    · intro c' r' hr'
      by_cases hcc : c' = c
      · subst hcc
        rw [getKV_applyIncrement_self _ _ _ _ hg] at hr'
        injection hr' with h
        subst h
        exact hInv.code_eq c' r hg
      · rw [getKV_applyIncrement_ne _ _ _ _ hcc] at hr'
        exact hInv.code_eq c' r' hr'
    · intro c' r' hr'
      by_cases hcc : c' = c
      · subst hcc
        exact hInv.code_ne c' r hg
      · rw [getKV_applyIncrement_ne _ _ _ _ hcc] at hr'
        exact hInv.code_ne c' r' hr'

/-- Caching the original url of an existing record preserves the invariant. -/
theorem inv_cache_put (app : AppState) (c : String) (r : URLRec)
    (hg : getKV app.store.urls c = some r) (hInv : Inv app) :
    Inv ⟨app.store, putKV app.cache c r.originalURL⟩ := by
  constructor
  · exact hInv.urls_rev
  · exact hInv.rev_urls
  · intro c' u' hcu
    by_cases hcc : c' = c
    · subst hcc
      rw [getKV_putKV_self] at hcu
      injection hcu with h
      subst h
      exact ⟨r, hg, rfl⟩
    · rw [getKV_putKV_ne _ _ _ _ hcc] at hcu
      exact hInv.cache_ok c' u' hcu
  · exact hInv.url_ne
  · exact hInv.code_eq
  · exact hInv.code_ne

/-- One resolve request preserves the invariant. -/
theorem inv_redirect (app : AppState) (shortCode : String) (incOk : Bool) (hInv : Inv app) :
    Inv (redirectHandler app shortCode incOk).2 := by
  unfold redirectHandler
  split
  · exact hInv
  · split
    · exact inv_increment app shortCode incOk hInv
    · next hcache =>
        split
        · next r hg =>
            split
            · exact hInv
            · have hstep := inv_increment app shortCode incOk hInv
              have hg' := getKV_applyIncrement_self app.store.urls shortCode incOk r hg
              have := inv_cache_put
                ⟨⟨applyIncrement app.store.urls shortCode incOk, app.store.reverse⟩, app.cache⟩
                shortCode _ hg' hstep
              exact this
        · exact hInv

/-- Every reachable state satisfies the invariant. -/
theorem reach_inv (app : AppState) (h : Reach app) : Inv app := by
  induction h with
  | init => exact inv_initial
  | shorten h parse rawURL hashes now writeOk hlen ih =>
      exact inv_shorten _ _ _ _ _ _ hlen ih
  | resolve h shortCode incOk ih => exact inv_redirect _ _ _ ih

/-- Dropping the whole cache (every TTL expired) preserves the invariant. -/
theorem inv_clear_cache (app : AppState) (hInv : Inv app) : Inv ⟨app.store, []⟩ := by
  constructor
  · exact hInv.urls_rev
  · exact hInv.rev_urls
  · exact fun c u h => by simp [getKV] at h
  · exact hInv.url_ne
  · exact hInv.code_eq
  · exact hInv.code_ne

/-- In an invariant state, resolving a code that has a record always redirects
to that record's original url — from the cache when the code is cached (the
cached url agrees with the record by the invariant), from the store otherwise. -/
theorem resolve_redirect (app : AppState) (c : String) (r : URLRec) (incOk : Bool)
    (hInv : Inv app) (hg : getKV app.store.urls c = some r) :
    (redirectHandler app c incOk).1 = .redirect r.originalURL := by
  have hc : c ≠ "" := hInv.code_ne c r hg
  unfold redirectHandler
  rw [if_neg hc]
  cases hcache : getKV app.cache c with
  | some u =>
    obtain ⟨r', hr', hru⟩ := hInv.cache_ok c u hcache
    rw [hg] at hr'
    injection hr' with h
    subst h
    simp [hcache, hru]
  | none =>
    have hne := hInv.url_ne c r hg
    simp [hcache, hg, hne]

/-- One resolve of an existing, non-empty-url record bumps its click count by
one and changes nothing else in the record. -/
theorem resolve_increments (app : AppState) (c : String) (r : URLRec)
    (hg : getKV app.store.urls c = some r) (hne : r.originalURL ≠ "") (hc : c ≠ "") :
    getKV (redirectHandler app c true).2.store.urls c
      = some ⟨r.id, r.originalURL, r.shortCode, r.createdAt, r.clickCount + 1⟩ := by
  unfold redirectHandler
  rw [if_neg hc]
  cases hcache : getKV app.cache c with
  | some u =>
    simp only [hcache]
    simpa using getKV_applyIncrement_self app.store.urls c true r hg
  | none =>
    simp only [hcache, hg]
    rw [if_neg hne]
    simpa using getKV_applyIncrement_self app.store.urls c true r hg

/-- After n sequential resolves (each increment completing), the record's
click count has grown by n and every other field is unchanged. -/
theorem resolveN_clicks (n : Nat) : ∀ (app : AppState) (c : String) (r : URLRec),
    getKV app.store.urls c = some r → r.originalURL ≠ "" → c ≠ "" →
    getKV (resolveN app c n).store.urls c
      = some ⟨r.id, r.originalURL, r.shortCode, r.createdAt, r.clickCount + n⟩ := by
  induction n with
  | zero =>
    intro app c r hg hne hc
    rw [resolveN]
    exact hg
  | succ n ih =>
    intro app c r hg hne hc
    rw [resolveN]
    have hstep := resolve_increments app c r hg hne hc
    rw [ih (redirectHandler app c true).2 c _ hstep hne hc]
    simp only [Option.some.injEq]
    have harith : r.clickCount + 1 + n = r.clickCount + (n + 1) := by omega
    simp [harith]

/-- C1: For every input string that Shorten accepts (it validates as an
absolute URL after normalization), resolving the short code it returned —
whether the hot cache still holds the entry or the whole cache has expired
and the persistent store answers — redirects exactly to the normalized
original url that Shorten stored. -/
theorem shorten_resolve_roundtrip (parse : String → Option URLInfo) (app : AppState)
    (rawURL : String) (hashes : List (List Nat)) (now : Nat) (writeOk : Bool)
    (resp : ShortenResponse) (app' : AppState) (incOk : Bool)
    (hlen : ∀ d ∈ hashes, d.length = 16) (hInv : Inv app)
    (h : shortenHandler parse app rawURL hashes now writeOk = (.ok resp, app')) :
    (redirectHandler app' resp.shortCode incOk).1 = .redirect (normalizeURL rawURL)
    ∧ (redirectHandler ⟨app'.store, []⟩ resp.shortCode incOk).1
        = .redirect (normalizeURL rawURL) := by
  have hInv' : Inv app' := by
    have hstep := inv_shorten parse app rawURL hashes now writeOk hlen hInv
    rw [h] at hstep
    exact hstep
  obtain ⟨hv, horig, hshort, hrev, r, hr, hru⟩ := shorten_ok_inv _ _ _ _ _ _ _ _ hInv h
  constructor
  · rw [resolve_redirect app' resp.shortCode r incOk hInv' hr, hru]
  · rw [resolve_redirect ⟨app'.store, []⟩ resp.shortCode r incOk
      (inv_clear_cache app' hInv') hr, hru]

/-- Witness for C1: shorten "example.com" in the fresh state, then resolve
"WWWWWWWW" both with the populated cache and with the cache expired. -/
theorem shorten_resolve_roundtrip_witness :
    (redirectHandler (⟨⟨[("WWWWWWWW", ⟨0, "https://example.com", "WWWWWWWW", 0, 0⟩)],
        [("https://example.com", "WWWWWWWW")]⟩,
        [("WWWWWWWW", "https://example.com")]⟩ : AppState) "WWWWWWWW" true).1
      = .redirect (normalizeURL "example.com")
    ∧ (redirectHandler (⟨⟨[("WWWWWWWW", ⟨0, "https://example.com", "WWWWWWWW", 0, 0⟩)],
        [("https://example.com", "WWWWWWWW")]⟩, []⟩ : AppState) "WWWWWWWW" true).1
      = .redirect (normalizeURL "example.com") :=
  shorten_resolve_roundtrip parseEx initialApp "example.com" [digest0] 0 true
    ⟨"http://localhost:8080/WWWWWWWW", "https://example.com", "WWWWWWWW"⟩
    ⟨⟨[("WWWWWWWW", ⟨0, "https://example.com", "WWWWWWWW", 0, 0⟩)],
      [("https://example.com", "WWWWWWWW")]⟩, [("WWWWWWWW", "https://example.com")]⟩
    true
    (by intro d hd; rw [List.mem_singleton] at hd; subst hd; rfl)
    inv_initial (by decide)

/-- C2: Shorten is idempotent for the exact same input string: if a first
call succeeds, a second call with the same string returns the identical
response (same short code) while changing nothing — it takes the dedup path —
and the store then holds exactly one record for that normalized url. -/
theorem shorten_idempotent (parse : String → Option URLInfo) (app : AppState)
    (rawURL : String) (hashes1 : List (List Nat)) (now1 : Nat) (writeOk1 : Bool)
    (resp1 : ShortenResponse) (app1 : AppState)
    (hlen1 : ∀ d ∈ hashes1, d.length = 16) (hInv : Inv app)
    (h1 : shortenHandler parse app rawURL hashes1 now1 writeOk1 = (.ok resp1, app1))
    (hashes2 : List (List Nat)) (now2 : Nat) (writeOk2 : Bool) :
    shortenHandler parse app1 rawURL hashes2 now2 writeOk2 = (.ok resp1, app1)
    ∧ ∃! c, ∃ r, getKV app1.store.urls c = some r
        ∧ r.originalURL = normalizeURL rawURL := by
  obtain ⟨hv, horig, hshort, hrev, r, hr, hru⟩ := shorten_ok_inv _ _ _ _ _ _ _ _ hInv h1
  have hInv1 : Inv app1 := by
    have hstep := inv_shorten parse app rawURL hashes1 now1 writeOk1 hlen1 hInv
    rw [h1] at hstep
    exact hstep
  constructor
  · rw [shorten_dedup parse app1 rawURL hashes2 now2 writeOk2 resp1.shortCode hv hrev]
    rw [show (⟨shortURLOf resp1.shortCode, normalizeURL rawURL, resp1.shortCode⟩
        : ShortenResponse) = resp1 from by rw [← hshort, ← horig]]
  · refine ⟨resp1.shortCode, ⟨r, hr, hru⟩, ?_⟩
    intro c' hc'
    obtain ⟨r', hr', hru'⟩ := hc'
    have hrev' := hInv1.urls_rev c' r' hr'
    rw [hru', hrev] at hrev'
    injection hrev' with h2
    exact h2.symm

/-- Witness for C2: two shortens of "example.com" from the fresh state. -/
theorem shorten_idempotent_witness :
    shortenHandler parseEx
      ⟨⟨[("WWWWWWWW", ⟨0, "https://example.com", "WWWWWWWW", 0, 0⟩)],
        [("https://example.com", "WWWWWWWW")]⟩, [("WWWWWWWW", "https://example.com")]⟩
      "example.com" [] 7 false
      = (.ok ⟨"http://localhost:8080/WWWWWWWW", "https://example.com", "WWWWWWWW"⟩,
         ⟨⟨[("WWWWWWWW", ⟨0, "https://example.com", "WWWWWWWW", 0, 0⟩)],
           [("https://example.com", "WWWWWWWW")]⟩, [("WWWWWWWW", "https://example.com")]⟩)
    ∧ ∃! c, ∃ r, getKV [("WWWWWWWW",
        (⟨0, "https://example.com", "WWWWWWWW", 0, 0⟩ : URLRec))] c = some r
        ∧ r.originalURL = normalizeURL "example.com" :=
  shorten_idempotent parseEx initialApp "example.com" [digest0] 0 true
    ⟨"http://localhost:8080/WWWWWWWW", "https://example.com", "WWWWWWWW"⟩
    ⟨⟨[("WWWWWWWW", ⟨0, "https://example.com", "WWWWWWWW", 0, 0⟩)],
      [("https://example.com", "WWWWWWWW")]⟩, [("WWWWWWWW", "https://example.com")]⟩
    (by intro d hd; rw [List.mem_singleton] at hd; subst hd; rfl)
    inv_initial (by decide) [] 7 false

/-- C3 counterexample: the claim maps the first 8 BYTES of the hash through
byte mod 62; the code instead maps the ASCII codes of the first 8 characters
of the hex-encoded hash.  On the all-zero 16-byte digest the generator
returns "WWWWWWWW" while the byte-mapping of the claim would give
"aaaaaaaa". -/
theorem generator_bytes_claim_false :
    generateShortCode [] [digest0] = some (codeFromHash digest0)
    ∧ codeFromHash digest0 = "WWWWWWWW"
    ∧ specClaimCode digest0 = "aaaaaaaa"
    ∧ codeFromHash digest0 ≠ specClaimCode digest0 := by decide

/-- C3 amended: `generateShortCode` hashes the url plus a fresh timestamp per
attempt (the digests are oracle inputs), derives the candidate by indexing the
62-symbol alphabet with the ASCII code modulo 62 of each of the first 8
characters of the HEX-ENCODED hash, and retries with a new timestamp while
the store already has the code; every returned code is exactly 8 characters
drawn from the 62-symbol alphabet and absent from the store. -/
theorem generator_amended (urls : List (String × URLRec)) (hashes : List (List Nat))
    (code : String) (hlen : ∀ d ∈ hashes, 4 ≤ d.length)
    (hg : generateShortCode urls hashes = some code) :
    (∃ d ∈ hashes, code = codeFromHash d)
    ∧ code.length = 8
    ∧ (∀ ch ∈ code.data, ch ∈ base62Chars.data)
    ∧ getKV urls code = none := by
  obtain ⟨⟨d, hd, hcode⟩, hfresh⟩ := generateShortCode_eq _ _ _ hg
  subst hcode
  exact ⟨⟨d, hd, rfl⟩, codeFromHash_length d (hlen d hd),
    fun ch hch => allowed_sub_base62 ch (codeFromHash_chars d ch hch), hfresh⟩

/-- Witness for the amended C3 on the all-zero digest. -/
theorem generator_amended_witness :
    (∃ d ∈ [digest0], codeFromHash digest0 = codeFromHash d)
    ∧ (codeFromHash digest0).length = 8
    ∧ (∀ ch ∈ (codeFromHash digest0).data, ch ∈ base62Chars.data)
    ∧ getKV ([] : List (String × URLRec)) (codeFromHash digest0) = none :=
  generator_amended [] [digest0] (codeFromHash digest0)
    (by intro d hd; rw [List.mem_singleton] at hd; subst hd; decide)
    (by decide)

/-- C4: every code the generator can return consists only of the sixteen
characters J K L M N O W X Y Z 0 1 2 3 4 5: the mod-62 map is applied to the
ASCII codes of hex digit characters (values 48-57 and 97-102). -/
theorem generator_sixteen_chars (urls : List (String × URLRec)) (hashes : List (List Nat))
    (code : String) (hg : generateShortCode urls hashes = some code) :
    ∀ ch ∈ code.data, ch ∈ allowedChars := by
  obtain ⟨⟨d, hd, hcode⟩, _⟩ := generateShortCode_eq _ _ _ hg
  subst hcode
  exact fun ch hch => codeFromHash_chars d ch hch

/-- Witness for C4 on the all-zero digest and its first character. -/
theorem generator_sixteen_chars_witness :
    generateShortCode [] [digest0] = some (codeFromHash digest0)
    ∧ 'W' ∈ (codeFromHash digest0).data
    ∧ 'W' ∈ allowedChars :=
  ⟨by decide, by decide,
   generator_sixteen_chars [] [digest0] (codeFromHash digest0) (by decide) 'W' (by decide)⟩

/-- C5: in every reachable store state, a record exists under a code in the
"urls" bucket iff the "reverse" bucket maps that record's original url to the
same code — neither entry exists without its counterpart. -/
theorem store_buckets_consistent (app : AppState) (h : Reach app) :
    StoreConsistent app.store :=
  ⟨(reach_inv app h).urls_rev, (reach_inv app h).rev_urls⟩

/-- Witness for C5: the state right after one concrete successful shorten is
reachable and consistent. -/
theorem store_buckets_consistent_witness :
    StoreConsistent (shortenHandler parseEx initialApp "example.com" [digest0] 0 true).2.store :=
  store_buckets_consistent _
    (Reach.shorten Reach.init parseEx "example.com" [digest0] 0 true
      (by intro d hd; rw [List.mem_singleton] at hd; subst hd; rfl))

/-- C6: starting from a record with click count 0, after n sequential
resolves of its code — each background increment completing before the next
call, each resolve served from the cache or from the store — the click count
equals n and the original url, short code and creation time are unchanged. -/
theorem clicks_count_resolves (app : AppState) (c : String) (r : URLRec) (n : Nat)
    (hg : getKV app.store.urls c = some r) (h0 : r.clickCount = 0)
    (hne : r.originalURL ≠ "") (hc : c ≠ "") :
    ∃ r', getKV (resolveN app c n).store.urls c = some r'
      ∧ r'.clickCount = n
      ∧ r'.originalURL = r.originalURL
      ∧ r'.shortCode = r.shortCode
      ∧ r'.createdAt = r.createdAt := by
  refine ⟨⟨r.id, r.originalURL, r.shortCode, r.createdAt, r.clickCount + n⟩,
    resolveN_clicks n app c r hg hne hc, ?_, rfl, rfl, rfl⟩
  simp [h0]

/-- Witness for C6: three resolves of a concrete record. -/
theorem clicks_count_resolves_witness :
    ∃ r', getKV (resolveN (⟨⟨[("WWWWWWWW", ⟨0, "https://example.com", "WWWWWWWW", 0, 0⟩)],
        [("https://example.com", "WWWWWWWW")]⟩, []⟩ : AppState) "WWWWWWWW" 3).store.urls
        "WWWWWWWW" = some r'
      ∧ r'.clickCount = 3
      ∧ r'.originalURL = "https://example.com"
      ∧ r'.shortCode = "WWWWWWWW"
      ∧ r'.createdAt = 0 :=
  clicks_count_resolves
    ⟨⟨[("WWWWWWWW", ⟨0, "https://example.com", "WWWWWWWW", 0, 0⟩)],
      [("https://example.com", "WWWWWWWW")]⟩, []⟩
    "WWWWWWWW" ⟨0, "https://example.com", "WWWWWWWW", 0, 0⟩ 3
    (by decide) rfl (by decide) (by decide)

/-- C7: an input with neither an "http://" nor an "https://" prefix gets
"https://" prepended before validation, and when the prefixed result fails
validation Shorten answers InvalidURL leaving store and cache untouched. -/
theorem normalize_then_validate (parse : String → Option URLInfo) (app : AppState)
    (rawURL : String) (hashes : List (List Nat)) (now : Nat) (writeOk : Bool)
    (h1 : leadsWith "http://".data rawURL.data = false)
    (h2 : leadsWith "https://".data rawURL.data = false) :
    normalizeURL rawURL = "https://" ++ rawURL
    ∧ (isValidURL parse ("https://" ++ rawURL) = false →
        shortenHandler parse app rawURL hashes now writeOk = (.invalidURL, app)) := by
  have hnorm : normalizeURL rawURL = "https://" ++ rawURL := by
    simp [normalizeURL, h1, h2]
  refine ⟨hnorm, fun hv => ?_⟩
  rw [← hnorm] at hv
  exact shorten_invalid _ _ _ _ _ _ hv

/-- Witness for C7: a scheme-less string rejected by a parse oracle that
accepts nothing. -/
theorem normalize_then_validate_witness :
    (normalizeURL "not a url" = "https://" ++ "not a url"
    ∧ (isValidURL (fun _ => none) ("https://" ++ "not a url") = false →
        shortenHandler (fun _ => none) initialApp "not a url" [] 0 true
          = (.invalidURL, initialApp)))
    ∧ shortenHandler (fun _ => none) initialApp "not a url" [] 0 true
        = (.invalidURL, initialApp) := by
  have h := normalize_then_validate (fun _ => none) initialApp "not a url" [] 0 true
    (by decide) (by decide)
  exact ⟨h, h.2 rfl⟩

/-- C8: when the write transaction persisting a new record fails, Shorten
answers the "failed to save url" error and the cache afterwards has no entry
for the freshly generated short code. -/
theorem write_fail_no_cache (parse : String → Option URLInfo) (app : AppState)
    (rawURL : String) (hashes : List (List Nat)) (now : Nat) (code : String)
    (hInv : Inv app)
    (hv : isValidURL parse (normalizeURL rawURL) = true)
    (hd : getKV app.store.reverse (normalizeURL rawURL) = none)
    (hg : generateShortCode app.store.urls hashes = some code) :
    shortenHandler parse app rawURL hashes now false = (.persistError, app)
    ∧ getKV (shortenHandler parse app rawURL hashes now false).2.cache code = none := by
  have heq := shorten_write_fail parse app rawURL hashes now code hv hd hg
  refine ⟨heq, ?_⟩
  rw [heq]
  cases hcache : getKV app.cache code with
  | none => rfl
  | some u =>
    obtain ⟨r, hr, _⟩ := hInv.cache_ok code u hcache
    obtain ⟨_, hfresh⟩ := generateShortCode_eq _ _ _ hg
    rw [hfresh] at hr
    cases hr

/-- Witness for C8: a failing write on the first shorten of "example.com". -/
theorem write_fail_no_cache_witness :
    shortenHandler parseEx initialApp "example.com" [digest0] 0 false
      = (.persistError, initialApp)
    ∧ getKV (shortenHandler parseEx initialApp "example.com" [digest0] 0 false).2.cache
        "WWWWWWWW" = none :=
  write_fail_no_cache parseEx initialApp "example.com" [digest0] 0 "WWWWWWWW"
    inv_initial (by decide) rfl (by decide)

/-- C9 counterexample: the claim says every error inside the background
increment task is LOGGED, but the goroutine bodies contain no log call — on a
concrete record whose increment transaction fails, the task leaves the bucket
as it was and emits not a single log line. -/
theorem increment_error_not_logged :
    (incrementTask [("WWWWWWWW", ⟨0, "https://example.com", "WWWWWWWW", 0, 0⟩)]
        "WWWWWWWW" false).2 = []
    ∧ (incrementTask [("WWWWWWWW", ⟨0, "https://example.com", "WWWWWWWW", 0, 0⟩)]
        "WWWWWWWW" false).1
      = [("WWWWWWWW", ⟨0, "https://example.com", "WWWWWWWW", 0, 0⟩)] :=
  ⟨rfl, rfl⟩

/-- C9 amended: every error occurring inside the background click-count
increment task is silently discarded — NOT logged — never surfaced to the
Resolve caller, and never retried: the task emits no log line on any outcome,
the resolve response is identical whether the increment succeeds or fails,
and a failed increment leaves both store buckets exactly as they were. -/
theorem increment_errors_swallowed (app : AppState) (shortCode : String) (incOk : Bool) :
    (redirectHandler app shortCode incOk).1 = (redirectHandler app shortCode true).1
    ∧ (redirectHandler app shortCode false).2.store.urls = app.store.urls
    ∧ (redirectHandler app shortCode false).2.store.reverse = app.store.reverse
    ∧ (incrementTask app.store.urls shortCode incOk).2 = []
    ∧ (incrementTask app.store.urls shortCode incOk).1
        = applyIncrement app.store.urls shortCode incOk := by
  refine ⟨?_, ?_, ?_, rfl, rfl⟩ <;>
  · by_cases hsc : shortCode = ""
    · simp [redirectHandler, hsc]
    · cases hcache : getKV app.cache shortCode with
      | some u => simp [redirectHandler, hsc, hcache, applyIncrement]
      | none =>
        cases hg : getKV app.store.urls shortCode with
        | some r =>
          by_cases hne : r.originalURL = ""
          · simp [redirectHandler, hsc, hcache, hg, hne]
          · simp [redirectHandler, hsc, hcache, hg, hne, applyIncrement]
        | none => simp [redirectHandler, hsc, hcache, hg]

/-- C10 counterexample: with the server configured for port 9090, a
successful shorten still returns a short url on "http://localhost:8080" —
the base is hardcoded in the handler, not the configured origin. -/
theorem shortURL_base_not_configurable :
    (shortenHandler parseEx initialApp "example.com" [digest0] 0 true).1
      = .ok ⟨"http://localhost:8080/WWWWWWWW", "https://example.com", "WWWWWWWW"⟩
    ∧ resolvePort "9090" = "9090"
    ∧ "http://localhost:8080/WWWWWWWW"
        ≠ "http://localhost:" ++ resolvePort "9090" ++ "/" ++ "WWWWWWWW" := by
  refine ⟨by decide, rfl, by decide⟩

/-- C10 amended: the short url of every successful Shorten is the HARDCODED
base "http://localhost:8080" followed by a slash and the returned short code,
independent of the configurable port. -/
theorem shortURL_hardcoded (parse : String → Option URLInfo) (app : AppState)
    (rawURL : String) (hashes : List (List Nat)) (now : Nat) (writeOk : Bool)
    (resp : ShortenResponse) (app' : AppState)
    (h : shortenHandler parse app rawURL hashes now writeOk = (.ok resp, app')) :
    resp.shortURL = "http://localhost:8080/" ++ resp.shortCode := by
  unfold shortenHandler at h
  split at h
  · split at h
    · next c hd =>
        simp only [Prod.mk.injEq, ShortenResult.ok.injEq] at h
        obtain ⟨hresp, _⟩ := h
        subst hresp
        rfl
    · next hd =>
        split at h
        · simp at h
        · next code hg =>
            split at h
            · simp only [Prod.mk.injEq, ShortenResult.ok.injEq] at h
              obtain ⟨hresp, _⟩ := h
              subst hresp
              rfl
            · simp at h
  · simp at h

/-- Witness for the amended C10 at a concrete successful shorten. -/
theorem shortURL_hardcoded_witness :
    "http://localhost:8080/WWWWWWWW" = "http://localhost:8080/" ++ "WWWWWWWW" :=
  shortURL_hardcoded parseEx initialApp "example.com" [digest0] 0 true
    ⟨"http://localhost:8080/WWWWWWWW", "https://example.com", "WWWWWWWW"⟩
    ⟨⟨[("WWWWWWWW", ⟨0, "https://example.com", "WWWWWWWW", 0, 0⟩)],
      [("https://example.com", "WWWWWWWW")]⟩, [("WWWWWWWW", "https://example.com")]⟩
    (by decide)

end GoShortener
